import Mathlib

/-!
Verification development for the snorkel labeling-function helper library
(`snorkel/utils.py`, `snorkel/lf_helpers.py`).

The Python sources are shallowly embedded below.  Pure generator functions
become Lean functions producing lists (a Python generator yields a finite
sequence here; a `ValueError` or other runtime error becomes `Except.error`).
The ORM object model (`snorkel/models.py`) and `table_utils` are not part of
the provided sources; the pieces of them that the helpers consult are
modelled from the specification and are marked as such in their doc
comments.
-/

/-! ## Token attributes and the sentence/phrase object model -/

/-- The token attribute selector (`attrib` argument: `words`, `lemmas`, `poses`). -/
inductive Attrib
  | words
  | lemmas
  | poses
deriving DecidableEq, Repr

/-- Modelled from the spec: the framework's sentence/phrase unit ("Token
sequence: ordered list of strings with parallel attribute arrays (word,
lemma, part-of-speech, pixel coordinates)").  `snorkel/models.py` is not in
the provided sources.  `id` models Python object identity, `text` the raw
character text, `hasCell` whether `phrase.cell is not None`, the
`row_start`/`row_end`/`col_start`/`col_end` options the phrase's table
position (absent for non-tabular phrases), and `top`/`bottom`/`left`/`right`
the per-token pixel boxes (empty list when the phrase has no coordinate
data). -/
structure Phrase where
  id : Nat := 0
  text : String := ""
  words : List String := []
  lemmas : List String := []
  poses : List String := []
  row_start : Option Nat := none
  row_end : Option Nat := none
  col_start : Option Nat := none
  col_end : Option Nat := none
  hasCell : Bool := false
  top : List Int := []
  bottom : List Int := []
  left : List Int := []
  right : List Int := []
  page : Nat := 0
deriving DecidableEq, Repr

/-- `phrase._asdict()[attrib]`: the parallel attribute array selected by `attrib`. -/
def attribOf (p : Phrase) : Attrib → List String
  | .words => p.words
  | .lemmas => p.lemmas
  | .poses => p.poses

/-- Modelled from the spec: a `TemporarySpan` — "a half-open character range
within a parent token sequence; carries word-start/word-end indices derived
from character offsets" (`snorkel/models.py` is not in the provided
sources).  `get_word_start`/`get_word_end` are the `word_start`/`word_end`
fields; `char_end` is inclusive, as in the source's `text[spans[j][1]+1:...]`
slicing. -/
structure Spn where
  parent : Phrase
  char_start : Nat := 0
  char_end : Nat := 0
  word_start : Nat := 0
  word_end : Nat := 0
deriving DecidableEq, Repr

/-- A candidate argument: a span, or a non-span object (for the
`isinstance(span, TemporarySpan)` check in `get_text_splits`). -/
inductive Arg
  | span (s : Spn)
  | other
deriving DecidableEq, Repr

/-! ## The n-gram generators -/

/-- Embedding of `slice_into_ngrams` from `snorkel/utils.py`:

    def slice_into_ngrams(tokens, n_max=3, delim='_'):
        N = len(tokens)
        for root in range(N):
            for n in range(min(n_max, N - root)):
                yield delim.join(tokens[root:root+n+1])
-/
def slice_into_ngrams (tokens : List String) (n_max : Nat := 3) (delim : String := "_") :
    List String :=
  (List.range tokens.length).flatMap (fun root =>
    (List.range (min n_max (tokens.length - root))).map (fun n =>
      String.intercalate delim ((tokens.drop root).take (n + 1))))

/-- Python `str.lower`, character by character (the character-level
equivalent of `String.toLower`, stated this way so that closed evaluations
reduce in the kernel). -/
def strLower (s : String) : String := String.mk (s.toList.map Char.toLower)

/-- Modelled from the spec: `tokens_to_ngrams`, which `lf_helpers.py` imports
from a `utils` module but which is absent from the provided sources
(`snorkel/utils.py` only defines `slice_into_ngrams`).  Per spec section 4.1:
"produce a lazy, finite, restartable sequence of space-joined substrings of
every contiguous length in [n_min, n_max], scanning right-to-left from each
end position so that longer n-grams are yielded before shorter ones ending
at the same position. Case-folds tokens unless disabled. No errors for empty
input (empty sequence)."  The default delimiter is a space (hence
"space-joined"); callers in `lf_helpers.py` never override it. -/
def tokens_to_ngrams (tokens : List String) (n_min n_max : Nat) (delim : String)
    (lower : Bool) : List String :=
  let f : String → String := fun w => if lower then strLower w else w
  (List.range tokens.length).flatMap (fun e =>
    ((List.range' n_min (min n_max (e + 1) + 1 - n_min)).reverse).map (fun n =>
      String.intercalate delim (((tokens.take (e + 1)).drop (e + 1 - n)).map f)))

/-! ## Directional context extractors -/

/-- Python list slice `l[a:b]` for the index forms arising in
`get_left_ngrams`/`get_right_ngrams`, where both bounds are nonnegative (a
negative *length* of window merely empties the slice, it never produces a
negative index: the left slice lower bound is clamped by `max(0, ...)` in
the source and the upper bounds are positions in the list). -/
def pySlice (l : List String) (a b : Int) : List String :=
  (l.take b.toNat).drop a.toNat

/-- Embedding of `get_left_ngrams` for a span argument (for a candidate the
source takes its first argument): ngrams of
`span.parent._asdict()[attrib][max(0, i-window):i]` with `i = get_word_start()`. -/
def get_left_ngrams (span : Spn) (window : Int) (attrib : Attrib)
    (n_min n_max : Nat) (lower : Bool) : List String :=
  let i : Int := span.word_start
  tokens_to_ngrams (pySlice (attribOf span.parent attrib) (max 0 (i - window)) i)
    n_min n_max " " lower

/-- Embedding of `get_right_ngrams` for a span argument (for a candidate the
source takes its last argument): ngrams of
`span.parent._asdict()[attrib][i+1:i+1+window]` with `i = get_word_end()`. -/
def get_right_ngrams (span : Spn) (window : Int) (attrib : Attrib)
    (n_min n_max : Nat) (lower : Bool) : List String :=
  let i : Int := span.word_end
  tokens_to_ngrams (pySlice (attribOf span.parent attrib) (i + 1) (i + 1 + window))
    n_min n_max " " lower

/-- Embedding of `get_between_ngrams`.  A candidate is its ordered list of
spans; the two `ValueError`s become `Except.error` (in the source the
function is a generator, so the error surfaces when the sequence is
elaborated; the embedding returns the fully elaborated sequence).  Note the
source branches on `get_word_start()` order, computes
`distance = abs(span0.get_word_start() - span1.get_word_start())`, and in
the `else` branch calls `get_left_ngrams(span1, window=distance-1, ...)`. -/
def get_between_ngrams (args : List Spn) (attrib : Attrib) (n_min n_max : Nat)
    (lower : Bool) : Except String (List String) :=
  match args with
  | [span0, span1] =>
    if span0.parent ≠ span1.parent then
      .error "Only applicable to Candidates where both spans are from the same immediate Context."
    else
      let distance : Int := ((span0.word_start : Int) - (span1.word_start : Int)).natAbs
      if span0.word_start < span1.word_start then
        .ok (get_right_ngrams span0 (distance - 1) attrib n_min n_max lower)
      else
        .ok (get_left_ngrams span1 (distance - 1) attrib n_min n_max lower)
  | _ => .error "Only applicable to binary Candidates"

/-- Modelled from the spec (section 4.3): the tokens lying strictly between
the two spans of a binary candidate — "compute the token-index gap between
the spans and return every n-gram strictly between them".  The gap runs from
the earlier span's last word (exclusive) to the later span's first word
(exclusive). -/
def strictly_between_tokens (s0 s1 : Spn) (attrib : Attrib) : List String :=
  let lo : Int := min s0.word_end s1.word_end
  let hi : Int := max s0.word_start s1.word_start
  pySlice (attribOf s0.parent attrib) (lo + 1) hi

/-- Modelled from the spec: the n-grams of the tokens strictly between the
two spans (the value `get_between_ngrams` is specified to produce). -/
def between_ngrams_spec (s0 s1 : Spn) (attrib : Attrib) (n_min n_max : Nat)
    (lower : Bool) : List String :=
  tokens_to_ngrams (strictly_between_tokens s0 s1 attrib) n_min n_max " " lower

/-! ## get_text_splits -/

/-- The `{{A}}` / `{{B}}` marker for argument index `i` (`"{{%s}}" % chr(65+i)`). -/
def argMarker (i : Nat) : String :=
  "\x7b\x7b" ++ String.singleton (Char.ofNat (65 + i)) ++ "\x7d\x7d"

/-- `text[:b]` character slice. -/
def strTake (s : String) (b : Nat) : String := String.mk (s.toList.take b)

/-- `text[a:]` character slice. -/
def strDropFrom (s : String) (a : Nat) : String := String.mk (s.toList.drop a)

/-- `text[a:b]` character slice. -/
def strSlice (s : String) (a b : Nat) : String := String.mk ((s.toList.take b).drop a)

/-- The enumerate loop of `get_text_splits`: collect
`(span.char_start, span.char_end, 65+i)` triples, raising at the first
argument that is not a `TemporarySpan`. -/
def collectSpanTriples : Nat → List Arg → Except String (List (Nat × Nat × Nat))
  | _, [] => .ok []
  | i, .span s :: rest => do
    let tl ← collectSpanTriples (i + 1) rest
    pure ((s.char_start, s.char_end, 65 + i) :: tl)
  | _, .other :: _ => .error "Handles Span-type Candidate arguments only"

/-- Lexicographic comparison of the sorted triples (`spans.sort()` on
`(char_start, char_end, chr(65+i))` tuples; the third components are
distinct so this is a total strict order and stability is irrelevant). -/
def tripleLe (a b : Nat × Nat × Nat) : Bool :=
  a.1 < b.1 || (a.1 = b.1 && (a.2.1 < b.2.1 || (a.2.1 = b.2.1 && a.2.2 ≤ b.2.2)))

/-- Insertion into a sorted triple list. -/
def insertTriple (x : Nat × Nat × Nat) : List (Nat × Nat × Nat) → List (Nat × Nat × Nat)
  | [] => [x]
  | y :: rest => if tripleLe x y then x :: y :: rest else y :: insertTriple x rest

/-- `spans.sort()` as an insertion sort. -/
def sortTriples (l : List (Nat × Nat × Nat)) : List (Nat × Nat × Nat) :=
  l.foldr insertTriple []

/-- The middle chunks of `get_text_splits`: for each adjacent sorted pair,
`text[spans[j][1]+1 : spans[j+1][0]]` followed by the marker of `spans[j+1]`. -/
def midChunks (text : String) : List (Nat × Nat × Nat) → List String
  | a :: b :: rest =>
    strSlice text (a.2.1 + 1) b.1 :: argMarker (b.2.2 - 65) :: midChunks text (b :: rest)
  | _ => []

/-- Embedding of `get_text_splits`.  The `ValueError` for a non-span
argument becomes `Except.error`; an empty candidate reaches
`text = span.parent.text` with the loop variable never bound and raises
`NameError` in Python.  `span` after the loop is the last argument. -/
def get_text_splits (args : List Arg) : Except String (List String) := do
  let triples ← collectSpanTriples 0 args
  match args.getLast? with
  | some (.span lastSpan) =>
    let text := lastSpan.parent.text
    let sorted := sortTriples triples
    match sorted, sorted.getLast? with
    | first :: _, some last =>
      pure (strTake text first.1 :: argMarker (first.2.2 - 65) ::
        (midChunks text sorted ++ [strDropFrom text (last.2.1 + 1)]))
    | _, _ => .error "IndexError: list index out of range"
  | _ => .error "NameError: name span is not defined"

/-- `Except` result classifier: `true` exactly when the computation raised. -/
def Except.isContractError {α : Type} : Except String α → Bool
  | .error _ => true
  | .ok _ => false

deriving instance DecidableEq for Except

/-! ## Table model and cell/row/column extractors -/

/-- A table axis (`'row'` / `'col'` strings in the source). -/
inductive Axis
  | row
  | col
deriving DecidableEq, Repr

/-- `_other_axis(axis)` from `lf_helpers.py`. -/
def _other_axis : Axis → Axis
  | .row => .col
  | .col => .row

/-- Modelled from the spec: a table `Cell` — "owns zero or more phrases;
positioned at (row_start, row_end, col_start, col_end) within a table"
(`snorkel/models.py` is not in the provided sources).  `rowPos`/`colPos`
model `cell.row.position` / `cell.col.position`: in the ORM, `cell.row` is a
`Row` entity and within one table two cells reference an equal `Row` exactly
when the positions coincide, so the entity comparison
`getattr(cell, axis) == getattr(root_cell, axis)` in `_infer_cell` is
embedded as equality of positions.  `id` models object identity. -/
structure TCell where
  id : Nat := 0
  text : String := ""
  phrases : List Phrase := []
  row_start : Nat := 0
  row_end : Nat := 0
  col_start : Nat := 0
  col_end : Nat := 0
  rowPos : Nat := 0
  colPos : Nat := 0
deriving DecidableEq, Repr

/-- Modelled from the spec: a `Table` "owns a set of cells".  The source
reaches the table through `root_phrase.table` / `root_cell.table`; the
embedding passes it explicitly. -/
structure Table where
  cells : List TCell
deriving DecidableEq, Repr

/-- `getattr(cell, axis).position`. -/
def axisPos (c : TCell) : Axis → Nat
  | .row => c.rowPos
  | .col => c.colPos

/-- `getattr(cell, axis + '_start')`. -/
def axisStart (c : TCell) : Axis → Nat
  | .row => c.row_start
  | .col => c.col_start

/-- `getattr(cell, axis + '_end')`. -/
def axisEnd (c : TCell) : Axis → Nat
  | .row => c.row_end
  | .col => c.col_end

/-- `getattr(phrase, axis + '_start')` for a phrase. -/
def phraseAxisStart (p : Phrase) : Axis → Option Nat
  | .row => p.row_start
  | .col => p.col_start

/-- `getattr(phrase, axis + '_end')` for a phrase. -/
def phraseAxisEnd (p : Phrase) : Axis → Option Nat
  | .row => p.row_end
  | .col => p.col_end

/-- Modelled from the spec (section 4.2): `is_axis_aligned` from
`table_utils`, which is imported by `lf_helpers.py` but absent from the
provided sources — "row-aligned(A, B): true iff A and B belong to the same
table and their row-index ranges overlap"; "must handle cells with no
assigned row/column (treated as unaligned)".  The callers only compare a
phrase with cells of that phrase's own table, so the same-table condition is
carried by the explicit `Table` argument of the callers. -/
def is_axis_aligned (p : Phrase) (c : TCell) (axis : Axis) : Bool :=
  match phraseAxisStart p axis, phraseAxisEnd p axis with
  | some s, some e => s ≤ axisEnd c axis && axisStart c axis ≤ e
  | _, _ => false

/-- The source's empty-cell test in `_infer_cell`:
`empty = len(root_cell.text) == 9` (with the comment "checking for
len(text)==9 checks if cell is `<td></td>`"). -/
def cellEmptyTest (c : TCell) : Bool := c.text.length == 9

/-- The result of `_infer_cell`: a real cell or the `PhantomCell` namedtuple. -/
inductive CellLike
  | cell (c : TCell)
  | phantom
deriving DecidableEq, Repr

/-- `.phrases` of a `_infer_cell` result (`PhantomCell(phrases=[])`). -/
def CellLike.phrases : CellLike → List Phrase
  | .cell c => c.phrases
  | .phantom => []

/-- Embedding of `_infer_cell`, with an explicit recursion bound.  The
source recursion steps from a cell to the cell whose other-axis position is
one less (`getattr(cell, _other_axis(axis)).position ==
getattr(root_cell, _other_axis(axis)).position - 1`), so the other-axis
position strictly decreases and `_infer_cell` starts the bound at that
position plus one; the zero-fuel branch is unreachable from `_infer_cell`.
`neighbor_cells[0]` on an empty list is Python's `IndexError`. -/
def _infer_cell_aux (table : Table) (axis : Axis) :
    Nat → Bool → Bool → TCell → Except String CellLike
  | 0, _, _, _ => .error "unreachable: the other-axis position strictly decreases"
  | _fuel + 1, direct, infer, root_cell =>
    let empty := cellEmptyTest root_cell
    let edge := axisStart root_cell (_other_axis axis) == 0
    if direct && (!empty || edge || !infer) then
      .ok (.cell root_cell)
    else if edge || !empty then
      .ok .phantom
    else
      match (table.cells.filter (fun c =>
          axisPos c axis == axisPos root_cell axis &&
          axisPos c (_other_axis axis) + 1 == axisPos root_cell (_other_axis axis))).head? with
      | none => .error "IndexError: list index out of range"
      | some nb => _infer_cell_aux table axis _fuel true true nb

/-- `_infer_cell(root_cell, axis, direct, infer)`. -/
def _infer_cell (table : Table) (root_cell : TCell) (axis : Axis)
    (direct infer : Bool) : Except String CellLike :=
  _infer_cell_aux table axis (axisPos root_cell (_other_axis axis) + 1) direct infer root_cell

/-- The flattening comprehension of `_get_aligned_phrases`: phrases of
`_infer_cell(cell, axis, direct, infer)` for each cell, in order, the first
raised error propagating. -/
def collectInferredPhrases (table : Table) (axis : Axis) (direct infer : Bool) :
    List TCell → Except String (List Phrase)
  | [] => .ok []
  | c :: cs => do
    let cl ← _infer_cell table c axis direct infer
    let rest ← collectInferredPhrases table axis direct infer cs
    pure (cl.phrases ++ rest)

/-- Embedding of `_get_aligned_phrases(root_phrase, axis, direct, infer)`:
phrases of the inferred cell of every cell of the phrase's table that is
axis-aligned with the phrase, excluding the root phrase itself. -/
def _get_aligned_phrases (table : Table) (root_phrase : Phrase) (axis : Axis)
    (direct infer : Bool) : Except String (List Phrase) := do
  let ps ← collectInferredPhrases table (_other_axis axis) direct infer
    (table.cells.filter (fun c => is_axis_aligned root_phrase c axis))
  pure (ps.filter (fun p => p ≠ root_phrase))

/-- Embedding of `get_phrase_ngrams` for a span argument: the left and right
ngrams with window 100. -/
def get_phrase_ngrams (span : Spn) (attrib : Attrib) (n_min n_max : Nat)
    (lower : Bool) : List String :=
  get_left_ngrams span 100 attrib n_min n_max lower ++
    get_right_ngrams span 100 attrib n_min n_max lower

/-- Embedding of `_get_axis_ngrams`. -/
def _get_axis_ngrams (table : Table) (span : Spn) (axis : Axis)
    (direct infer : Bool) (attrib : Attrib) (n_min n_max : Nat) (lower : Bool) :
    Except String (List String) := do
  let base := get_phrase_ngrams span attrib n_min n_max lower
  if span.parent.hasCell then
    let phrases ← _get_aligned_phrases table span.parent axis direct infer
    pure (base ++ phrases.flatMap (fun p =>
      tokens_to_ngrams (attribOf p attrib) n_min n_max " " lower))
  else
    pure base

/-- Embedding of `get_row_ngrams` for a span argument. -/
def get_row_ngrams (table : Table) (span : Spn) (direct infer : Bool)
    (attrib : Attrib) (n_min n_max : Nat) (lower : Bool) :
    Except String (List String) :=
  _get_axis_ngrams table span .row direct infer attrib n_min n_max lower

/-- Embedding of `get_col_ngrams` for a span argument. -/
def get_col_ngrams (table : Table) (span : Spn) (direct infer : Bool)
    (attrib : Attrib) (n_min n_max : Nat) (lower : Bool) :
    Except String (List String) :=
  _get_axis_ngrams table span .col direct infer attrib n_min n_max lower

/-- Embedding of `get_neighbor_cell_ngrams` for a span argument.  After
yielding the phrase ngrams, the source evaluates

    chain.from_iterable([_get_aligned_phrases(phrase, 'row'), _get_aligned_phrases(phrase, 'col')])

in which `phrase` is the for-target being defined by that very statement and
has no prior binding in the function, so Python raises
`UnboundLocalError` as soon as the guard
`span.parent.row_start is not None and span.parent.col_start is not None`
passes.  The embedding returns the items yielded before termination paired
with the pending error, if any; the `dist`/`directions` parameters are never
reached. -/
def get_neighbor_cell_ngrams (span : Spn) (_dist : Nat) (_directions : Bool)
    (attrib : Attrib) (n_min n_max : Nat) (lower : Bool) :
    List String × Option String :=
  let base := get_phrase_ngrams span attrib n_min n_max lower
  if span.parent.row_start.isSome && span.parent.col_start.isSome then
    (base, some "UnboundLocalError: local variable referenced before assignment")
  else
    (base, none)

/-! ## Visual feature helpers -/

/-- The `_Bbox` namedtuple. -/
structure Bbox where
  top : Int
  bottom : Int
  left : Int
  right : Int
deriving DecidableEq, Repr

/-- Python `min` over a nonempty list (callers guard against the empty
list, on which Python's `min` raises). -/
def listMin : List Int → Int
  | [] => 0
  | x :: xs => xs.foldl min x

/-- Python `max` over a nonempty list. -/
def listMax : List Int → Int
  | [] => 0
  | x :: xs => xs.foldl max x

/-- Embedding of `_bbox_from_span` for a phrase argument.  The source's
first branch tests `isinstance(span, Phrase) and span.top`, the second
`span.get_attrib_tokens('top')`; for a phrase both consult the same
per-token coordinate arrays, so the two branches coincide and a phrase
without coordinate data yields `None`. -/
def _bbox_from_span (p : Phrase) : Option Bbox :=
  if p.top ≠ [] then
    some ⟨listMin p.top, listMax p.bottom, listMin p.left, listMax p.right⟩
  else
    none

/-- Insertion-ordered grouping (`defaultdict(list)` with `append`):
append `p` to the group of key `k`, creating the group at the end on first
occurrence. -/
def groupUpd {κ : Type} [DecidableEq κ] :
    List (κ × List Phrase) → κ → Phrase → List (κ × List Phrase)
  | [], k, p => [(k, [p])]
  | (k', l) :: rest, k, p =>
    if k' = k then (k', l ++ [p]) :: rest else (k', l) :: groupUpd rest k p

/-- The per-phrase aligned-lemma state (`phrase._aligned_lemmas`), keyed by
phrase identity. -/
abbrev LemmaMap := List (Nat × Finset String)

/-- Look up a phrase's aligned-lemma set. -/
def lemmaGet (m : LemmaMap) (i : Nat) : Finset String :=
  match m.find? (fun e => e.1 == i) with
  | some e => e.2
  | none => ∅

/-- Update a phrase's aligned-lemma set. -/
def lemmaSet (m : LemmaMap) (i : Nat) (s : Finset String) : LemmaMap :=
  m.map (fun e => if e.1 == i then (e.1, s) else e)

/-- Python `str.isalpha`: nonempty and all characters alphabetic. -/
def pyIsAlpha (s : String) : Bool := s.length != 0 && s.toList.all Char.isAlpha

/-- The inner loop of `_assign_alignment_features` over one alignment group:
each phrase absorbs the running `context_lemmas`, then — if it has fewer
than 7 lemmas — contributes its lowercased alphabetic lemmas and their
`align_type`-tagged copies to the running context. -/
def _assign_group (align_type : String) :
    List Phrase → Finset String → LemmaMap → LemmaMap
  | [], _, m => m
  | p :: ps, context_lemmas, m =>
    let m := lemmaSet m p.id (lemmaGet m p.id ∪ context_lemmas)
    if p.lemmas.length < 7 then
      let new_lemmas := (p.lemmas.filter pyIsAlpha).map strLower
      let context_lemmas := context_lemmas ∪ new_lemmas.toFinset ∪
        (new_lemmas.map (fun l => align_type ++ l)).toFinset
      _assign_group align_type ps context_lemmas m
    else
      _assign_group align_type ps context_lemmas m

/-- Embedding of `_assign_alignment_features(phrases_by_key, align_type)`:
groups of size 1 are skipped; each other group is processed with an
initially empty context. -/
def _assign_alignment_features (phrases_by_key : List (List Phrase))
    (align_type : String) (m : LemmaMap) : LemmaMap :=
  phrases_by_key.foldl (fun m phrases =>
    if phrases.length == 1 then m else _assign_group align_type phrases ∅ m) m

/-- Modelled from the spec: the document as seen by
`_preprocess_visual_features` (its `phrases` collection). -/
structure VDoc where
  phrases : List Phrase
deriving DecidableEq, Repr

/-- The first loop of `_preprocess_visual_features`: every phrase's
`_aligned_lemmas` attribute is initialized to the empty set. -/
def visualInit (doc : VDoc) : LemmaMap :=
  doc.phrases.map (fun p => (p.id, (∅ : Finset String)))

/-- The per-page body of `_preprocess_visual_features`: compute each
phrase's bounding box and alignment keys — the source dereferences
`phrase.bbox.top` unconditionally, so a phrase whose `_bbox_from_span` is
`None` raises `AttributeError` — then group by the four alignment keys and
assign alignment features in the order `Y_`, `LEFT_`, `RIGHT_`, `CENTER_`.
`yc = (top+bottom)/2` and `xc = (x0+x1)/2` are Python 2 integer floor
divisions.  The source sorts each group by the group's own key; within one
group that key is constant and Python's sort is stable, so the sort is the
identity and is omitted here. -/
def processPage (phrases : List Phrase) (m : LemmaMap) : Except String LemmaMap := do
  let keyed ← phrases.mapM (fun p => do
    match _bbox_from_span p with
    | none => Except.error "AttributeError: NoneType object has no attribute top"
    | some b =>
      let yc := (b.top + b.bottom).fdiv 2
      let x0 := b.left
      let x1 := b.right
      let xc := (x0 + x1).fdiv 2
      pure (p, yc, x0, x1, xc))
  let yc_aligned := keyed.foldl (fun g e => groupUpd g e.2.1 e.1) []
  let x0_aligned := keyed.foldl (fun g e => groupUpd g e.2.2.1 e.1) []
  let x1_aligned := keyed.foldl (fun g e => groupUpd g e.2.2.2.1 e.1) []
  let xc_aligned := keyed.foldl (fun g e => groupUpd g e.2.2.2.2 e.1) []
  let m := _assign_alignment_features (yc_aligned.map (fun e => e.2)) "Y_" m
  let m := _assign_alignment_features (x0_aligned.map (fun e => e.2)) "LEFT_" m
  let m := _assign_alignment_features (x1_aligned.map (fun e => e.2)) "RIGHT_" m
  let m := _assign_alignment_features (xc_aligned.map (fun e => e.2)) "CENTER_" m
  pure m

/-- Embedding of `_preprocess_visual_features(doc)` (the first, computing
invocation; the `_visual_features` memo flag only suppresses recomputation).
Initializes every phrase's `_aligned_lemmas` to the empty set, then
processes each page's alignments; a raised `AttributeError` propagates. -/
def _preprocess_visual_features (doc : VDoc) : Except String LemmaMap := do
  let phrase_by_page := doc.phrases.foldl (fun g p => groupUpd g p.page p) []
  let m0 := visualInit doc
  phrase_by_page.foldlM (fun m e => processPage e.2 m) m0

/-! ## Concrete instances used by the theorems -/

/-- `get_attrib_tokens(attrib)` of a span: its own tokens.  Modelled from the
spec's span notion (word-start/word-end indices into the parent's arrays). -/
def get_attrib_tokens (s : Spn) (attrib : Attrib) : List String :=
  ((attribOf s.parent attrib).take (s.word_end + 1)).drop s.word_start

/-- A five-word sentence. -/
def sentUVWXY : Phrase := { id := 100, text := "u v w x y", words := ["u", "v", "w", "x", "y"] }

/-- The span over word 2 (`"w"`) of `sentUVWXY`. -/
def spanW : Spn := { parent := sentUVWXY, char_start := 4, char_end := 4, word_start := 2, word_end := 2 }

/-- The span over word 4 (`"y"`) of `sentUVWXY`. -/
def spanY : Spn := { parent := sentUVWXY, char_start := 8, char_end := 8, word_start := 4, word_end := 4 }

/-- A four-word sentence. -/
def sentABCD : Phrase := { id := 101, text := "a b c d", words := ["a", "b", "c", "d"] }

/-- The two-word span over words 0–1 (`"a b"`) of `sentABCD`. -/
def spanAB : Spn := { parent := sentABCD, char_start := 0, char_end := 2, word_start := 0, word_end := 1 }

/-- The span over word 3 (`"d"`) of `sentABCD`. -/
def spanD : Spn := { parent := sentABCD, char_start := 6, char_end := 6, word_start := 3, word_end := 3 }

/-- The span over word 0 (`"a"`) of `sentABCD`. -/
def spanA : Spn := { parent := sentABCD, char_start := 0, char_end := 0, word_start := 0, word_end := 0 }

/-- The span over word 2 (`"c"`) of `sentABCD`. -/
def spanC : Spn := { parent := sentABCD, char_start := 4, char_end := 4, word_start := 2, word_end := 2 }

/-! ## C1 -/

/-- Claim C1: for a binary candidate with both spans in one parent,
`get_between_ngrams` is claimed to yield exactly the n-grams of the tokens
strictly between the two spans, for every span order and width.  The code
diverges: when the candidate's first span starts after its second
(`span0.get_word_start() > span1.get_word_start()`), the source calls
`get_left_ngrams(span1, window=distance-1)`, which collects tokens to the
left of the *leftmost* span instead of the gap — here the candidate
`(spanY, spanW)` over `"u v w x y"` yields `["v"]` while the tokens strictly
between the spans are `["x"]`.  Moreover the window is derived from the
word-*start* distance, so for a first span wider than one token the yielded
window runs past the gap into the second span: `(spanAB, spanD)` over
`"a b c d"` yields `["c", "d"]`, and `"d"` is `spanD`'s own token. -/
theorem C1_between_ngrams_escapes_gap :
    get_between_ngrams [spanY, spanW] .words 1 1 true = .ok ["v"]
    ∧ between_ngrams_spec spanY spanW .words 1 1 true = ["x"]
    ∧ (["v"] : List String) ≠ ["x"]
    ∧ get_between_ngrams [spanAB, spanD] .words 1 1 true = .ok ["c", "d"]
    ∧ "d" ∈ get_attrib_tokens spanD .words := by decide

/-! ## C2 -/

/-- Claim C2: `get_between_ngrams` is claimed to be symmetric under span
order.  It is not: over `"a b c d"` with spans at words 0 and 2, the order
`(spanA, spanC)` yields the gap token `["b"]` while `(spanC, spanA)` takes
the `else` branch and yields the tokens left of `spanA`, namely none. -/
theorem C2_between_ngrams_asymmetric :
    get_between_ngrams [spanA, spanC] .words 1 1 true = .ok ["b"]
    ∧ get_between_ngrams [spanC, spanA] .words 1 1 true = .ok []
    ∧ get_between_ngrams [spanA, spanC] .words 1 1 true
        ≠ get_between_ngrams [spanC, spanA] .words 1 1 true := by decide

/-! ## C3 -/

/-- Claim C3 (counterexample): the claim describes the n-gram generator as
producing space-joined, case-folded n-grams in longest-first-per-end-position
order.  `slice_into_ngrams` — the n-gram generator present in
`snorkel/utils.py` — joins with `'_'` by default (so the claimed space-joined
set is not produced), and does not case-fold even when a space delimiter is
supplied. -/
theorem C3_slice_into_ngrams_claim_false :
    "the quick" ∉ slice_into_ngrams ["the", "quick", "brown", "fox"] 2 "_"
    ∧ "the_quick" ∈ slice_into_ngrams ["the", "quick", "brown", "fox"] 2 "_"
    ∧ slice_into_ngrams ["The"] 1 " " = ["The"] := by decide

/-- Claim C3 (amended): `slice_into_ngrams` produces delimiter-joined
substrings (default delimiter `'_'`), has no `n_min` parameter and performs
no case-folding, and scans left-to-right from each start position with
shorter n-grams before longer ones at the same start.  On the claimed
example with `n_max = 2` it produces exactly the seven listed n-grams —
with a space delimiter this is the claimed set, and at `n_max = 2` the
claimed order happens to coincide; at `n_max = 3` the shortest-first-per-
start-position order is visible. -/
theorem C3_slice_into_ngrams_eval :
    slice_into_ngrams ["the", "quick", "brown", "fox"] 2 "_"
      = ["the", "the_quick", "quick", "quick_brown", "brown", "brown_fox", "fox"]
    ∧ slice_into_ngrams ["the", "quick", "brown", "fox"] 2 " "
      = ["the", "the quick", "quick", "quick brown", "brown", "brown fox", "fox"]
    ∧ slice_into_ngrams ["a", "b", "c"] 3 "_"
      = ["a", "a_b", "a_b_c", "b", "b_c", "c"] := by decide

/-! ## C5 -/

/-- A phrase with assigned row and column (cell position (0,0)). -/
def nbrPhrase : Phrase :=
  { id := 50, words := ["cell", "text"], row_start := some 0, row_end := some 0,
    col_start := some 0, col_end := some 0, hasCell := true }

/-- A span over `nbrPhrase`'s first word. -/
def nbrSpan : Spn := { parent := nbrPhrase, word_start := 0, word_end := 0 }

/-- Claim C5: `get_neighbor_cell_ngrams` is claimed to yield n-grams from
phrases at a bounded single-axis cell offset, with direction labels.  The
code never gets there: as soon as the span's phrase has `row_start` and
`col_start` assigned, the generator evaluates
`_get_aligned_phrases(phrase, 'row')` with the loop variable `phrase` still
unbound and raises `UnboundLocalError`, after yielding only the phrase-level
n-grams. -/
theorem C5_neighbor_cell_ngrams_unbound_variable :
    get_neighbor_cell_ngrams nbrSpan 1 true .words 1 1 true
      = (["text"], some "UnboundLocalError: local variable referenced before assignment")
    ∧ get_phrase_ngrams nbrSpan .words 1 1 true = ["text"] := by decide

/-! ## C7 -/

/-- A cell whose text has 9 characters but plainly has content. -/
def cellNineChars : TCell := { id := 70, text := "ABCDEFGHI" }

/-- The empty-cell sentinel itself. -/
def cellSentinel : TCell := { id := 71, text := "<td></td>" }

/-- Claim C7: a cell is claimed to be classified structurally empty iff its
text is exactly `"<td></td>"`, and in particular no non-empty 9-character
text is classified empty.  The code tests only `len(text) == 9`, so the
cell with text `"ABCDEFGHI"` — which is neither the sentinel nor empty — is
classified empty; the classification is exactly "text has length 9". -/
theorem C7_empty_cell_test_is_length_hack :
    cellEmptyTest cellNineChars = true
    ∧ cellNineChars.text ≠ "<td></td>"
    ∧ cellNineChars.text ≠ ""
    ∧ cellEmptyTest cellSentinel = true
    ∧ (∀ c : TCell, cellEmptyTest c = true ↔ c.text.length = 9) := by
  refine ⟨by decide, by decide, by decide, by decide, ?_⟩
  intro c
  simp [cellEmptyTest]

/-! ## C8 -/

/-- A phrase with no phrase-level and no per-token coordinate data. -/
def coordlessPhrase : Phrase := { id := 80, words := ["w"], lemmas := ["w"] }

/-- A document containing only the coordinate-less phrase. -/
def coordlessDoc : VDoc := { phrases := [coordlessPhrase] }

/-- Claim C8: a phrase lacking any coordinate data is claimed to be skipped
without error by the visual-feature preprocessing pass.  The code
initializes every phrase's `_aligned_lemmas` to the empty set, but then
dereferences `phrase.bbox.top` unconditionally, so the `None` returned by
`_bbox_from_span` for such a phrase raises `AttributeError` instead of
skipping it. -/
theorem C8_coordless_phrase_crashes :
    _bbox_from_span coordlessPhrase = none
    ∧ visualInit coordlessDoc = [(80, (∅ : Finset String))]
    ∧ _preprocess_visual_features coordlessDoc
        = .error "AttributeError: NoneType object has no attribute top" := by decide

/-! ## C4 -/

/-- Sum of a function mapped over `List.range` equals the `Finset.range` sum. -/
theorem list_range_map_sum (g : Nat → Nat) : ∀ N : Nat,
    ((List.range N).map g).sum = ∑ r in Finset.range N, g r := by
  intro N
  induction N with
  | zero => simp
  | succ N ih =>
    rw [List.range_succ, List.map_append, List.sum_append, Finset.sum_range_succ, ih]
    simp

/-- The per-start-position window sizes of `slice_into_ngrams` sum to the
per-length counts of the spec's formula (with `n_min = 1`). -/
theorem sum_min_window (k : Nat) : ∀ N : Nat,
    ∑ r in Finset.range N, min k (N - r) = ∑ n in Finset.Icc 1 k, (N + 1 - n) := by
  intro N
  induction N with
  | zero =>
    rw [Finset.range_zero, Finset.sum_empty]
    exact (Finset.sum_eq_zero (fun n hn => by
      rw [Finset.mem_Icc] at hn
      omega)).symm
  | succ N ih =>
    have hsplit : ∑ r in Finset.range (N + 1), min k (N + 1 - r)
        = (∑ r in Finset.range N, min k (N - r)) + min k (N + 1) := by
      rw [Finset.sum_range_succ' (fun r => min k (N + 1 - r)) N]
      congr 1
      exact Finset.sum_congr rfl (fun i _ => by congr 1; omega)
    have hcount : ∑ n in Finset.Icc 1 k, ((if n ≤ N + 1 then 1 else 0) : Nat)
        = min k (N + 1) := by
      rw [Finset.sum_boole]
      have hfil : (Finset.Icc 1 k).filter (fun n => n ≤ N + 1)
          = Finset.Icc 1 (min k (N + 1)) := by
        ext n
        simp only [Finset.mem_filter, Finset.mem_Icc]
        omega
      rw [hfil, Nat.card_Icc]
      simp
    have hstep : ∑ n in Finset.Icc 1 k, (N + 1 + 1 - n)
        = (∑ n in Finset.Icc 1 k, (N + 1 - n)) + min k (N + 1) := by
      rw [← hcount, ← Finset.sum_add_distrib]
      exact Finset.sum_congr rfl (fun n hn => by
        rw [Finset.mem_Icc] at hn
        by_cases h : n ≤ N + 1 <;> simp [h] <;> omega)
    rw [hsplit, hstep, ih]

/-- The length of `slice_into_ngrams` as a sum of window sizes. -/
theorem slice_into_ngrams_length (tokens : List String) (n_max : Nat) (delim : String) :
    (slice_into_ngrams tokens n_max delim).length
      = ∑ r in Finset.range tokens.length, min n_max (tokens.length - r) := by
  unfold slice_into_ngrams
  rw [List.length_flatMap]
  rw [← list_range_map_sum (fun r => min n_max (tokens.length - r)) tokens.length]
  congr 1
  exact List.map_congr_left (fun r _ => by simp [Function.comp])

/-- Every yielded item of `slice_into_ngrams` is the delimiter-join of a
contiguous slice of between 1 and `n_max` tokens. -/
theorem slice_into_ngrams_mem (tokens : List String) (n_max : Nat) (delim : String) :
    ∀ g ∈ slice_into_ngrams tokens n_max delim, ∃ root k, 1 ≤ k ∧ k ≤ n_max ∧
      ((tokens.drop root).take k).length = k ∧
      g = String.intercalate delim ((tokens.drop root).take k) := by
  intro g hg
  unfold slice_into_ngrams at hg
  simp only [List.mem_flatMap, List.mem_map, List.mem_range] at hg
  obtain ⟨root, hroot, n, hn, hgeq⟩ := hg
  refine ⟨root, n + 1, by omega, by omega, ?_, hgeq.symm⟩
  rw [List.length_take, List.length_drop]
  omega

/-- Claim C4 (amended): `slice_into_ngrams` has no `n_min` parameter, i.e.
behaves as the claim with `n_min = 1`: for every token sequence and bound
`n_max ≥ 1` it yields exactly `∑_{n ∈ [1, n_max]} (len(T) + 1 - n)` items
(each summand truncating to zero when `len(T) < n`), each item being the
delimiter-join of a contiguous slice of between 1 and `n_max` tokens, and
the empty token sequence yields the empty sequence without error. -/
theorem C4_slice_into_ngrams_count (tokens : List String) (n_max : Nat)
    (delim : String) (_h : 1 ≤ n_max) :
    (slice_into_ngrams tokens n_max delim).length
      = ∑ n in Finset.Icc 1 n_max, (tokens.length + 1 - n)
    ∧ (∀ g ∈ slice_into_ngrams tokens n_max delim, ∃ root k, 1 ≤ k ∧ k ≤ n_max ∧
        ((tokens.drop root).take k).length = k ∧
        g = String.intercalate delim ((tokens.drop root).take k))
    ∧ slice_into_ngrams ([] : List String) n_max delim = [] :=
  ⟨by rw [slice_into_ngrams_length, sum_min_window],
   slice_into_ngrams_mem tokens n_max delim,
   rfl⟩

/-- Claim C4 (witness): the amended count at a concrete input. -/
theorem C4_slice_into_ngrams_count_witness :
    (slice_into_ngrams ["a", "b", "c"] 2 "_").length
      = ∑ n in Finset.Icc 1 2, ((["a", "b", "c"] : List String).length + 1 - n) :=
  (C4_slice_into_ngrams_count ["a", "b", "c"] 2 "_" (by decide)).1

/-- Claim C4 (counterexample): for `n_min = 2`, `n_max = 2` and two tokens
the claim predicts exactly one item, every item having at least two tokens;
`slice_into_ngrams` — which has no `n_min` parameter — yields three items,
among them the single-token `"a"`. -/
theorem C4_slice_into_ngrams_claim_false :
    slice_into_ngrams ["a", "b"] 2 "_" = ["a", "a_b", "b"]
    ∧ ¬((slice_into_ngrams ["a", "b"] 2 "_").length = ∑ n in Finset.Icc 2 2, (2 + 1 - n))
    ∧ "a" ∈ slice_into_ngrams ["a", "b"] 2 "_" := by
  refine ⟨by decide, ?_, by decide⟩
  intro hcontra
  rw [show (∑ n in Finset.Icc 2 2, (2 + 1 - n)) = 1 from rfl] at hcontra
  exact absurd hcontra (by decide)

/-! ## C9 -/

/-- A non-span argument anywhere in the candidate makes the enumerate loop
of `get_text_splits` raise its `ValueError`. -/
theorem collectSpanTriples_error_of_nonspan :
    ∀ (l : List Arg) (i : Nat), Arg.other ∈ l →
    collectSpanTriples i l = .error "Handles Span-type Candidate arguments only" := by
  intro l
  induction l with
  | nil => intro i h; cases h
  | cons a rest ih =>
    intro i h
    match a with
    | .other => rfl
    | .span s =>
      have hm : Arg.other ∈ rest := by
        cases h with
        | tail _ h => exact h
      simp only [collectSpanTriples, ih (i + 1) hm]
      rfl

/-- Claim C9: `get_between_ngrams` raises its input-contract `ValueError`
exactly when the candidate's span arity is not two or the two spans have
different parents, and raises nothing when both conditions hold;
`get_text_splits` raises its input-contract `ValueError` whenever some
candidate argument is not a span.  (In the source both functions are
generators, so "immediately and synchronously" holds of the elaboration of
the returned sequence: the check precedes the first yield.) -/
theorem C9_contract_errors :
    (∀ (args : List Spn) (attrib : Attrib) (n_min n_max : Nat) (lower : Bool),
      args.length ≠ 2 →
      (get_between_ngrams args attrib n_min n_max lower).isContractError = true)
    ∧ (∀ (s0 s1 : Spn) (attrib : Attrib) (n_min n_max : Nat) (lower : Bool),
      s0.parent ≠ s1.parent →
      (get_between_ngrams [s0, s1] attrib n_min n_max lower).isContractError = true)
    ∧ (∀ (s0 s1 : Spn) (attrib : Attrib) (n_min n_max : Nat) (lower : Bool),
      s0.parent = s1.parent →
      (get_between_ngrams [s0, s1] attrib n_min n_max lower).isContractError = false)
    ∧ (∀ args : List Arg, Arg.other ∈ args →
      (get_text_splits args).isContractError = true) := by
  refine ⟨?_, ?_, ?_, ?_⟩
  · intro args attrib n_min n_max lower h
    match args with
    | [] => rfl
    | [_] => rfl
    | [_, _] => exact absurd rfl h
    | _ :: _ :: _ :: _ => rfl
  · intro s0 s1 attrib n_min n_max lower h
    simp only [get_between_ngrams]
    rw [if_pos h]
    rfl
  · intro s0 s1 attrib n_min n_max lower h
    simp only [get_between_ngrams]
    rw [if_neg (not_not_intro h)]
    split <;> rfl
  · intro args h
    simp only [get_text_splits, collectSpanTriples_error_of_nonspan args 0 h]
    rfl

/-- A sentence distinct from `sentABCD`, for the different-parents case. -/
def sentEF : Phrase := { id := 102, text := "e f", words := ["e", "f"] }

/-- A span in `sentEF`. -/
def spanE : Spn := { parent := sentEF, word_start := 0, word_end := 0 }

/-- Claim C9 (witness): the contract behavior at concrete candidates. -/
theorem C9_contract_errors_witness :
    (get_between_ngrams [] .words 1 1 true).isContractError = true
    ∧ (get_between_ngrams [spanA, spanE] .words 1 1 true).isContractError = true
    ∧ (get_between_ngrams [spanA, spanC] .words 1 1 true).isContractError = false
    ∧ (get_text_splits [Arg.span spanA, Arg.other]).isContractError = true :=
  ⟨C9_contract_errors.1 [] .words 1 1 true (by decide),
   C9_contract_errors.2.1 spanA spanE .words 1 1 true (by decide),
   C9_contract_errors.2.2.1 spanA spanC .words 1 1 true (by decide),
   C9_contract_errors.2.2.2 [Arg.span spanA, Arg.other] (by decide)⟩

/-! ## C6 -/

/-- With `direct=True`, `_infer_cell` returns the cell itself whenever the
cell is not classified empty, whatever the `infer` flag. -/
theorem infer_cell_direct_of_nonempty (table : Table) (c : TCell) (axis : Axis)
    (infer : Bool) (h : cellEmptyTest c = false) :
    _infer_cell table c axis true infer = .ok (.cell c) := by
  unfold _infer_cell _infer_cell_aux
  simp [h]

/-- Over a list of cells none of which is classified empty, the `direct`
collection does not depend on the `infer` flag. -/
theorem collect_inferred_direct_congr (table : Table) (axis : Axis)
    (infer1 infer2 : Bool) :
    ∀ l : List TCell, (∀ c ∈ l, cellEmptyTest c = false) →
    collectInferredPhrases table axis true infer1 l
      = collectInferredPhrases table axis true infer2 l := by
  intro l
  induction l with
  | nil => intro _; rfl
  | cons c cs ih =>
    intro h
    have hc := h c (List.mem_cons_self c cs)
    have hcs : ∀ x ∈ cs, cellEmptyTest x = false :=
      fun x hx => h x (List.mem_cons_of_mem c hx)
    simp only [collectInferredPhrases,
      infer_cell_direct_of_nonempty table c axis infer1 hc,
      infer_cell_direct_of_nonempty table c axis infer2 hc, ih hcs]

/-- When no aligned cell is classified empty, `_get_aligned_phrases` with
`direct=True` does not depend on the `infer` flag. -/
theorem aligned_phrases_direct_congr (table : Table) (root : Phrase) (axis : Axis)
    (infer1 infer2 : Bool)
    (h : ∀ c ∈ table.cells, is_axis_aligned root c axis = true → cellEmptyTest c = false) :
    _get_aligned_phrases table root axis true infer1
      = _get_aligned_phrases table root axis true infer2 := by
  unfold _get_aligned_phrases
  rw [collect_inferred_direct_congr table (_other_axis axis) infer1 infer2 _ (fun c hc => by
    rw [List.mem_filter] at hc
    exact h c hc.1 hc.2)]

/-- Claim C6 (amended): for every span all of whose row-aligned
(resp. column-aligned) cells are not classified empty by the code's test
(text length differing from 9 — the test's notion of "non-empty", which by
C7 is coarser than "has content"), `get_row_ngrams` (resp. `get_col_ngrams`)
with `infer=True` returns output identical to the same call with
`infer=False`: inference is a no-op on cells the code classifies as
non-empty. -/
theorem C6_infer_noop_on_nonempty (table : Table) (span : Spn) (attrib : Attrib)
    (n_min n_max : Nat) (lower : Bool)
    (hrow : ∀ c ∈ table.cells, is_axis_aligned span.parent c .row = true →
      cellEmptyTest c = false)
    (hcol : ∀ c ∈ table.cells, is_axis_aligned span.parent c .col = true →
      cellEmptyTest c = false) :
    get_row_ngrams table span true true attrib n_min n_max lower
      = get_row_ngrams table span true false attrib n_min n_max lower
    ∧ get_col_ngrams table span true true attrib n_min n_max lower
      = get_col_ngrams table span true false attrib n_min n_max lower := by
  constructor
  · unfold get_row_ngrams _get_axis_ngrams
    rw [aligned_phrases_direct_congr table span.parent .row true false hrow]
  · unfold get_col_ngrams _get_axis_ngrams
    rw [aligned_phrases_direct_congr table span.parent .col true false hcol]

/-- The root phrase of the two-row table, in its cell at (row 1, col 0). -/
def rowPhraseRoot : Phrase :=
  { id := 200, words := ["root"], row_start := some 1, row_end := some 1,
    col_start := some 0, col_end := some 0, hasCell := true }

/-- The phrase `"foo"` inside the 9-character-text cell at (row 1, col 1). -/
def rowPhraseFoo : Phrase :=
  { id := 201, words := ["foo"], row_start := some 1, row_end := some 1,
    col_start := some 1, col_end := some 1, hasCell := true }

/-- The phrase `"bar"` inside the cell at (row 0, col 1), above the
9-character cell. -/
def rowPhraseBar : Phrase :=
  { id := 202, words := ["bar"], row_start := some 0, row_end := some 0,
    col_start := some 1, col_end := some 1, hasCell := true }

/-- The root span's cell at (row 1, col 0). -/
def rowCellRoot : TCell :=
  { id := 210, text := "<td>r</td>", phrases := [rowPhraseRoot], row_start := 1,
    row_end := 1, col_start := 0, col_end := 0, rowPos := 1, colPos := 0 }

/-- A cell with plainly non-empty 9-character text, at (row 1, col 1), not
at the table edge. -/
def rowCellNine : TCell :=
  { id := 211, text := "123456789", phrases := [rowPhraseFoo], row_start := 1,
    row_end := 1, col_start := 1, col_end := 1, rowPos := 1, colPos := 1 }

/-- The cell above `rowCellNine`, at (row 0, col 1). -/
def rowCellAbove : TCell :=
  { id := 212, text := "<td>b</td>", phrases := [rowPhraseBar], row_start := 0,
    row_end := 0, col_start := 1, col_end := 1, rowPos := 0, colPos := 1 }

/-- The two-row table. -/
def rowTable : Table := { cells := [rowCellRoot, rowCellNine, rowCellAbove] }

/-- The span over `rowPhraseRoot`'s only word. -/
def rowSpan : Spn := { parent := rowPhraseRoot, word_start := 0, word_end := 0 }

/-- Claim C6 (counterexample): in `rowTable` every cell has non-empty text,
yet for the span in the (row 1, col 0) cell, row n-grams with `infer=True`
substitute the cell above the row-aligned cell whose text has 9 characters
(`"123456789"`, classified empty by the `len(text)==9` test) and yield
`["bar"]`, while `infer=False` yields that cell's own `["foo"]`. -/
theorem C6_claim_counterexample :
    rowTable.cells.all (fun c => !(c.text == "")) = true
    ∧ get_row_ngrams rowTable rowSpan true true .words 1 1 true = .ok ["bar"]
    ∧ get_row_ngrams rowTable rowSpan true false .words 1 1 true = .ok ["foo"]
    ∧ get_row_ngrams rowTable rowSpan true true .words 1 1 true
        ≠ get_row_ngrams rowTable rowSpan true false .words 1 1 true := by decide

/-- A one-cell table with no 9-character text, for the witness. -/
def plainCell : TCell :=
  { id := 220, text := "<td>r</td>", phrases := [rowPhraseRoot], row_start := 1,
    row_end := 1, col_start := 0, col_end := 0, rowPos := 1, colPos := 0 }

/-- The one-cell table. -/
def plainTable : Table := { cells := [plainCell] }

/-- Claim C6 (witness): the no-op equation at a concrete table whose cells
all fail the emptiness test. -/
theorem C6_infer_noop_on_nonempty_witness :
    get_row_ngrams plainTable rowSpan true true .words 1 1 true
      = get_row_ngrams plainTable rowSpan true false .words 1 1 true
    ∧ get_col_ngrams plainTable rowSpan true true .words 1 1 true
      = get_col_ngrams plainTable rowSpan true false .words 1 1 true :=
  C6_infer_noop_on_nonempty plainTable rowSpan .words 1 1 true
    (by decide) (by decide)

/-! ## C10 -/

/-- Any cell returned by the `_infer_cell` recursion is either the starting
cell itself or a table cell at a strictly smaller other-axis position (each
recursion step moves to the cell whose other-axis position is one less). -/
theorem infer_cell_aux_cell_cases (table : Table) (axis : Axis) :
    ∀ (fuel : Nat) (direct infer : Bool) (root c' : TCell),
    _infer_cell_aux table axis fuel direct infer root = .ok (.cell c') →
    c' = root ∨ (c' ∈ table.cells
      ∧ axisPos c' (_other_axis axis) < axisPos root (_other_axis axis)) := by
  intro fuel
  induction fuel with
  | zero =>
    intro direct infer root c' h
    exact absurd h (by simp [_infer_cell_aux])
  | succ fuel ih =>
    intro direct infer root c' h
    unfold _infer_cell_aux at h
    split at h
    · -- match none-case: the final leaf is an error
      simp only [] at h
      split at h
      · left
        injection h with h'
        cases h'
        rfl
      · split at h
        · exact absurd h (by simp)
        · exact Except.noConfusion h
    · rename_i nb heq
      simp only [] at h
      split at h
      · left
        injection h with h'
        cases h'
        rfl
      · split at h
        · exact absurd h (by simp)
        · have hnb : nb ∈ table.cells.filter (fun c =>
              axisPos c axis == axisPos root axis &&
              axisPos c (_other_axis axis) + 1 == axisPos root (_other_axis axis)) := by
            cases hfl : table.cells.filter (fun c =>
                axisPos c axis == axisPos root axis &&
                axisPos c (_other_axis axis) + 1 == axisPos root (_other_axis axis)) with
            | nil => rw [hfl] at heq; cases heq
            | cons x xs =>
              rw [hfl] at heq
              injection heq with heq'
              rw [← heq']
              exact List.mem_cons_self x xs
          rw [List.mem_filter] at hnb
          obtain ⟨hnbmem, hnbpred⟩ := hnb
          simp only [Bool.and_eq_true, beq_iff_eq] at hnbpred
          cases ih true true nb c' h with
          | inl he =>
            subst he
            right
            exact ⟨hnbmem, by omega⟩
          | inr he =>
            obtain ⟨hm, hlt⟩ := he
            right
            exact ⟨hm, by omega⟩

/-- `_other_axis` is an involution. -/
theorem other_axis_other (axis : Axis) : _other_axis (_other_axis axis) = axis := by
  cases axis <;> rfl

/-- With `direct=False` and `infer=True`, `_infer_cell` yields the phantom
cell — discarding the cell's own phrases — whenever the cell is not
classified empty by the code's test or sits at the table edge. -/
theorem infer_cell_indirect_phantom (table : Table) (c : TCell) (axis : Axis)
    (h : cellEmptyTest c = false ∨ axisStart c (_other_axis axis) = 0) :
    _infer_cell table c axis false true = .ok .phantom := by
  unfold _infer_cell _infer_cell_aux
  cases h with
  | inl h => simp [h]
  | inr h => simp [h]

/-- With `direct=False` and `infer=True`, every real cell `_infer_cell`
yields comes from the recursion, hence belongs to the table and sits at a
strictly smaller other-axis position than the starting cell. -/
theorem infer_cell_indirect_cell_strict (table : Table) (c : TCell) (axis : Axis)
    (c' : TCell) (h : _infer_cell table c axis false true = .ok (.cell c')) :
    c' ∈ table.cells
      ∧ axisPos c' (_other_axis axis) < axisPos c (_other_axis axis) := by
  unfold _infer_cell _infer_cell_aux at h
  split at h
  · simp only [] at h
    split at h
    · rename_i hcond
      simp at hcond
    · split at h
      · exact absurd h (by simp)
      · exact Except.noConfusion h
  · rename_i nb heq
    simp only [] at h
    split at h
    · rename_i hcond
      simp at hcond
    · split at h
      · exact absurd h (by simp)
      · have hnb : nb ∈ table.cells.filter (fun x =>
            axisPos x axis == axisPos c axis &&
            axisPos x (_other_axis axis) + 1 == axisPos c (_other_axis axis)) := by
          cases hfl : table.cells.filter (fun x =>
              axisPos x axis == axisPos c axis &&
              axisPos x (_other_axis axis) + 1 == axisPos c (_other_axis axis)) with
          | nil => rw [hfl] at heq; cases heq
          | cons x xs =>
            rw [hfl] at heq
            injection heq with heq'
            rw [← heq']
            exact List.mem_cons_self x xs
        rw [List.mem_filter] at hnb
        obtain ⟨hnbmem, hnbpred⟩ := hnb
        simp only [Bool.and_eq_true, beq_iff_eq] at hnbpred
        cases infer_cell_aux_cell_cases table axis _ true true nb c' h with
        | inl he =>
          subst he
          exact ⟨hnbmem, by omega⟩
        | inr he =>
          obtain ⟨hm, hlt⟩ := he
          exact ⟨hm, by omega⟩

/-- Every phrase collected by `collectInferredPhrases` comes from the
`_infer_cell` result of some listed cell. -/
theorem mem_collect_inferred (table : Table) (axis : Axis) (direct infer : Bool) :
    ∀ (l : List TCell) (ps : List Phrase),
    collectInferredPhrases table axis direct infer l = .ok ps →
    ∀ p ∈ ps, ∃ D ∈ l, ∃ cl, _infer_cell table D axis direct infer = .ok cl
      ∧ p ∈ cl.phrases := by
  intro l
  induction l with
  | nil =>
    intro ps h p hp
    injection h with h'
    rw [← h'] at hp
    cases hp
  | cons c cs ih =>
    intro ps h p hp
    simp only [collectInferredPhrases] at h
    cases hc : _infer_cell table c axis direct infer with
    | error e =>
      rw [hc] at h
      simp only [bind, Except.bind] at h
      exact Except.noConfusion h
    | ok cl =>
      rw [hc] at h
      cases hrest : collectInferredPhrases table axis direct infer cs with
      | error e =>
        rw [hrest] at h
        simp only [bind, Except.bind] at h
        exact Except.noConfusion h
      | ok rest =>
        rw [hrest] at h
        simp only [bind, Except.bind, pure, Except.pure] at h
        injection h with h'
        rw [← h'] at hp
        cases List.mem_append.mp hp with
        | inl hl => exact ⟨c, List.mem_cons_self c cs, cl, hc, hl⟩
        | inr hr =>
          obtain ⟨D, hD, cl', h1, h2⟩ := ih rest hrest p hr
          exact ⟨D, List.mem_cons_of_mem c hD, cl', h1, h2⟩

/-- Under the table-model invariants (cells positioned at their own
row/column positions, cell phrases carrying their cell's position, the root
phrase occupying a single position along the alignment axis), the aligned
phrases collected with `direct=False`, `infer=True` never come from any
cell aligned with the root phrase — in particular not from a non-empty
aligned cell. -/
theorem indirect_aligned_phrases_avoid_aligned (table : Table) (root : Phrase)
    (axis : Axis) (r : Nat)
    (hroot1 : phraseAxisStart root axis = some r)
    (hroot2 : phraseAxisEnd root axis = some r)
    (hgrid : ∀ c ∈ table.cells,
      axisStart c axis = axisPos c axis ∧ axisEnd c axis = axisPos c axis)
    (hown : ∀ c ∈ table.cells, ∀ p ∈ c.phrases,
      phraseAxisStart p axis = some (axisPos c axis))
    (ps : List Phrase)
    (hps : _get_aligned_phrases table root axis false true = .ok ps) :
    ∀ p ∈ ps, ∀ C ∈ table.cells, is_axis_aligned root C axis = true →
      cellEmptyTest C = false → p ∉ C.phrases := by
  intro p hp C hC hCal _hCne hpC
  unfold _get_aligned_phrases at hps
  cases hcol : collectInferredPhrases table (_other_axis axis) false true
      (table.cells.filter (fun c => is_axis_aligned root c axis)) with
  | error e =>
    rw [hcol] at hps
    simp only [bind, Except.bind] at hps
    exact Except.noConfusion hps
  | ok qs =>
    rw [hcol] at hps
    simp only [bind, Except.bind, pure, Except.pure] at hps
    injection hps with hps'
    rw [← hps'] at hp
    have hpqs : p ∈ qs := List.mem_of_mem_filter hp
    obtain ⟨D, hD, cl, hDinf, hpcl⟩ :=
      mem_collect_inferred table (_other_axis axis) false true _ qs hcol p hpqs
    rw [List.mem_filter] at hD
    obtain ⟨hDmem, hDal⟩ := hD
    cases cl with
    | phantom => cases hpcl
    | cell c' =>
      obtain ⟨hc'mem, hc'lt⟩ :=
        infer_cell_indirect_cell_strict table D (_other_axis axis) c' hDinf
      rw [other_axis_other] at hc'lt
      have hpc' := hown c' hc'mem p hpcl
      have hpC2 := hown C hC p hpC
      obtain ⟨hgC1, hgC2⟩ := hgrid C hC
      obtain ⟨hgD1, hgD2⟩ := hgrid D hDmem
      unfold is_axis_aligned at hCal hDal
      rw [hroot1, hroot2] at hCal hDal
      simp only [Bool.and_eq_true, decide_eq_true_eq] at hCal hDal
      rw [hpc'] at hpC2
      injection hpC2 with he
      omega

/-- Claim C10: with `direct=False` and `infer=True`, `_infer_cell` returns
a `PhantomCell` with an empty phrase list whenever the cell is non-empty
(by the code's test) or sits at the table edge — its own phrases are
discarded — and recursion to the preceding cell along the axis occurs only
when the cell is both empty and not at the edge; consequently the aligned
phrases feeding `get_row_ngrams`/`get_col_ngrams` with `direct=False`,
`infer=True` are never sourced from a non-empty aligned cell (stated for
either axis, under the table-model invariants of the surrounding ORM). -/
theorem C10_indirect_infer_discards :
    (∀ (table : Table) (c : TCell) (axis : Axis),
      cellEmptyTest c = false ∨ axisStart c (_other_axis axis) = 0 →
      _infer_cell table c axis false true = .ok .phantom)
    ∧ (∀ (table : Table) (root : Phrase) (axis : Axis) (r : Nat),
      phraseAxisStart root axis = some r →
      phraseAxisEnd root axis = some r →
      (∀ c ∈ table.cells,
        axisStart c axis = axisPos c axis ∧ axisEnd c axis = axisPos c axis) →
      (∀ c ∈ table.cells, ∀ p ∈ c.phrases,
        phraseAxisStart p axis = some (axisPos c axis)) →
      ∀ ps, _get_aligned_phrases table root axis false true = .ok ps →
      ∀ p ∈ ps, ∀ C ∈ table.cells, is_axis_aligned root C axis = true →
        cellEmptyTest C = false → p ∉ C.phrases) :=
  ⟨fun table c axis h => infer_cell_indirect_phantom table c axis h,
   fun table root axis r h1 h2 h3 h4 ps hps =>
     indirect_aligned_phrases_avoid_aligned table root axis r h1 h2 h3 h4 ps hps⟩

/-- Claim C10 (witness): in the concrete two-row table, indirect inference
on the non-empty root cell yields the phantom, and the phrase that the
indirect row collection does yield (from the cell above the empty-classified
one) is not a phrase of the non-empty aligned root cell. -/
theorem C10_indirect_infer_discards_witness :
    _infer_cell rowTable rowCellRoot .col false true = .ok .phantom
    ∧ rowPhraseBar ∉ rowCellRoot.phrases :=
  ⟨C10_indirect_infer_discards.1 rowTable rowCellRoot .col (Or.inl (by decide)),
   C10_indirect_infer_discards.2 rowTable rowPhraseRoot .row 1 (by decide) (by decide)
     (by decide) (by decide) [rowPhraseBar] (by decide) rowPhraseBar (by decide)
     rowCellRoot (by decide) (by decide) (by decide)⟩
